import Mathlib

/-!
Shallow embedding of the schema-annotation and validation logic of
`ezpantherlog.py`, a schema-authoring assistant for a log-parsing framework.
Python dictionaries holding schema fields are modelled by the `Field`
inductive; Python exceptions are modelled by the `Err` type, whose
constructors carry the data that the Python code interpolates into the
exception message.  Fallible Python functions become functions into
`Except Err _`.
-/

namespace Ezpantherlog

/-- Python exceptions raised by `ezpantherlog.py`.  Each constructor carries
the data interpolated into the corresponding Python exception message.
`IndexError` and `KeyError` model the built-in Python exceptions that escape
from `unzipped_entries[0]` / `value.partition(".")[2][0]` style indexing and
from `del field["fields"]`. -/
inductive Err : Type where
  /-- `LogFormatError`: the pretty-print diagnostic
  "The JSON log sample must be one blob per log line (must not be pretty printed)." -/
  | LogFormatErrorPretty : Err
  /-- `LogFormatError`: "The JSON sample on line num failed to be loaded, is the JSON valid?",
  carrying the 1-based line number. -/
  | LogFormatErrorLine : Nat → Err
  /-- `SchemaNameError`: "value must start with a capital letter.", carrying the
  already-prefixed value. -/
  | SchemaNameError : String → Err
  /-- `EventTimeFieldError`: "Unable to find eventTimeField field", carrying the
  missing field name. -/
  | EventTimeFieldError : String → Err
  /-- `IndicatorFieldError` as raised by `_validate_indicator_field`:
  "t is not a valid indicator type format, must be one of valid", carrying the
  offending indicator type and the valid vocabulary. -/
  | IndicatorFieldErrorType : String → List String → Err
  /-- `IndicatorFieldError` as raised by `_is_ioc_field_missing`:
  "Unable to find indicator field unfound", carrying the computed list of
  unmatched names. -/
  | IndicatorFieldErrorUnfound : List String → Err
  /-- `PantherlogParseError`, carrying the full decoded standard-error text. -/
  | PantherlogParseError : String → Err
  /-- `PantherlogTestError`, carrying the full decoded standard-error text. -/
  | PantherlogTestError : String → Err
  /-- Python built-in `IndexError` from indexing an empty list. -/
  | IndexError : Err
  /-- Python built-in `KeyError` from deleting an absent dictionary key. -/
  | KeyError : String → Err
deriving DecidableEq

/-- One schema field ("FieldSpec"): a Python dictionary with a `name` and
`type` entry and the optional entries `isEventTime`, `timeFormat`,
`indicators` and `fields` (the nested sub-field list of object-typed
fields).  `Option` models presence or absence of the dictionary key. -/
inductive Field : Type where
  | mk : String → String → Option Bool → Option String → Option (List String) →
      Option (List Field) → Field

/-- The `name` entry of a field. -/
def Field.name : Field → String
  | .mk n _ _ _ _ _ => n

/-- The `type` entry of a field. -/
def Field.type : Field → String
  | .mk _ t _ _ _ _ => t

/-- The optional `isEventTime` entry of a field. -/
def Field.isEventTime : Field → Option Bool
  | .mk _ _ e _ _ _ => e

/-- The optional `timeFormat` entry of a field. -/
def Field.timeFormat : Field → Option String
  | .mk _ _ _ t _ _ => t

/-- The optional `indicators` entry of a field. -/
def Field.indicators : Field → Option (List String)
  | .mk _ _ _ _ i _ => i

/-- The optional nested `fields` entry of a field. -/
def Field.fields : Field → Option (List Field)
  | .mk _ _ _ _ _ s => s

/-- Assign the `type` entry of a field (Python `field["type"] = t`). -/
def Field.withType : Field → String → Field
  | .mk n _ e tf i s, t => .mk n t e tf i s

/-- Assign the `isEventTime` entry of a field. -/
def Field.withIsEventTime : Field → Option Bool → Field
  | .mk n t _ tf i s, e => .mk n t e tf i s

/-- Assign the `timeFormat` entry of a field. -/
def Field.withTimeFormat : Field → Option String → Field
  | .mk n t e _ i s, tf => .mk n t e tf i s

/-- Assign the `indicators` entry of a field. -/
def Field.withIndicators : Field → Option (List String) → Field
  | .mk n t e tf _ s, i => .mk n t e tf i s

/-- Assign (or, with `none`, delete) the nested `fields` entry of a field. -/
def Field.withFields : Field → Option (List Field) → Field
  | .mk n t e tf i _, s => .mk n t e tf i s

/-- The inferred schema document: the top-level mapping, of which only the
ordered `fields` list is inspected by the annotation logic. -/
structure Schema : Type where
  fields : List Field

/-- Python whitespace characters stripped by `str.strip()` (ASCII range). -/
def isPySpace (c : Char) : Bool :=
  c = ' ' || c = '\t' || c = '\n' || c = '\r' || c = '\x0b' || c = '\x0c'

/-- Python `str.strip()`: remove leading and trailing whitespace. -/
def pyStrip (s : String) : String :=
  String.mk (((s.data.dropWhile isPySpace).reverse.dropWhile isPySpace).reverse)

/-- Python `s.startswith(p)`. -/
def pyStartswith (s p : String) : Bool :=
  p.data.isPrefixOf s.data

/-- Python `s.endswith(p)`. -/
def pyEndswith (s p : String) : Bool :=
  p.data.reverse.isPrefixOf s.data.reverse

/-- Auxiliary for `pyIn`: does `needle` occur as a contiguous run in `hay`? -/
def hasSubstring : List Char → List Char → Bool
  | needle, [] => needle.isEmpty
  | needle, c :: t => needle.isPrefixOf (c :: t) || hasSubstring needle t

/-- Python `needle in hay` on strings: contiguous substring containment. -/
def pyIn (needle hay : String) : Bool :=
  hasSubstring needle.data hay.data

/-- Everything after the first occurrence of `sep`, or `[]` when `sep` does
not occur: Python `s.partition(sep)[2]` on the character list. -/
def afterFirst (sep : Char) : List Char → List Char
  | [] => []
  | c :: cs => if c = sep then cs else afterFirst sep cs

/-! ## SampleValidator: `_validate_logs`

The log sample is modelled as its list of lines (each line without its
trailing newline).  `ujson.loads` succeeding on a line is modelled by the
abstract predicate `jsonOk` — the JSON parser itself is an external library
collaborator, and none of the validator's control flow depends on more than
the success bit. -/

/-- The second pass of `_validate_logs`: parse every line as JSON and fail on
the first line that does not load, with its 1-based line number. -/
def check_json_lines (jsonOk : String → Bool) : List String → Nat → Except Err Unit
  | [], _ => Except.ok ()
  | l :: ls, num =>
    if jsonOk l then check_json_lines jsonOk ls (num + 1)
    else Except.error (Err.LogFormatErrorLine num)

/-- `_validate_logs`: `first_line` is `file.readline()` (the empty string on
an empty file); `last_line` starts as the empty string and is overwritten by
`for last_line in file` iterating over the lines after the first, so on a
one-line file it stays empty.  Both are stripped, the first line must end in
a closing brace and the last in an opening brace, and only then is every line
parsed as JSON. -/
def validate_logs (jsonOk : String → Bool) (lines : List String) : Except Err Unit :=
  let first_line := pyStrip (lines.headD "")
  let last_line := pyStrip (lines.tail.getLastD "")
  if pyEndswith first_line "\x7d" = false then Except.error Err.LogFormatErrorPretty
  else if pyStartswith last_line "\x7b" = false then Except.error Err.LogFormatErrorPretty
  else check_json_lines jsonOk lines 1

/-! ## NameNormalizer: `_validate_schema_name` -/

/-- The first two lines of `_validate_schema_name`: prepend the namespace
"Custom." when the raw value does not already start with it. -/
def normalize_name (value : String) : String :=
  if pyStartswith value "Custom." then value else "Custom." ++ value

/-- `_validate_schema_name`: after normalization, Python evaluates
`value.partition(".")[2][0].isupper()`.  Indexing `[0]` on the empty string
raises `IndexError`; otherwise a non-uppercase first character after the
first dot raises `SchemaNameError` naming the already-prefixed value. -/
def validate_schema_name (value : String) : Except Err String :=
  match afterFirst '.' (normalize_name value).data with
  | [] => Except.error Err.IndexError
  | c :: _ =>
    if c.isUpper then Except.ok (normalize_name value)
    else Except.error (Err.SchemaNameError (normalize_name value))

/-! ## Indicator-directive validation: `_validate_indicator_field` -/

/-- The closed indicator-type vocabulary `INDICATOR_TYPES`. -/
def INDICATOR_TYPES : List String :=
  ["ip", "domain", "hostname", "url", "net_addr", "sha256", "sha1", "md5",
   "trace_id", "aws_arn", "aws_instance_id", "aws_account_id", "aws_tag",
   "username", "email"]

/-- The loop of `_validate_indicator_field`: fail on the first indicator type
outside the vocabulary. -/
def check_indicator_types : List String → Except Err Unit
  | [] => Except.ok ()
  | t :: ts =>
    if INDICATOR_TYPES.contains t then check_indicator_types ts
    else Except.error (Err.IndicatorFieldErrorType t INDICATOR_TYPES)

/-- `_validate_indicator_field`: `unzipped_entries = list(zip(*value))`
unzips the (indicator-type, field-name) pairs; on an empty tuple the
subscript `unzipped_entries[0]` raises `IndexError`.  Otherwise each
indicator type is checked against the vocabulary and the value is returned
unchanged. -/
def validate_indicator_field (value : List (String × String)) :
    Except Err (List (String × String)) :=
  match value with
  | [] => Except.error Err.IndexError
  | _ :: _ =>
    match check_indicator_types (value.map Prod.fst) with
    | Except.error e => Except.error e
    | Except.ok _ => Except.ok value

/-! ## SchemaAnnotator presence checks -/

/-- The loop of `_is_event_time_field_missing`: scan the fields for one whose
name equals the requested event-time field. -/
def find_field_name : List Field → String → Bool
  | [], _ => false
  | v :: vs, etf => if v.name = etf then true else find_field_name vs etf

/-- `_is_event_time_field_missing` (note the misnomer in the source: it
returns `True` exactly when the field IS present). -/
def is_event_time_field_missing (schema : Schema) (etf : String) : Bool :=
  find_field_name schema.fields etf

/-- The call site in `_write_schema_file`: raise `EventTimeFieldError` when
`_is_event_time_field_missing(schema, event_time_field) is False`. -/
def event_time_check (schema : Schema) (etf : String) : Except Err Unit :=
  if is_event_time_field_missing schema etf = false then
    Except.error (Err.EventTimeFieldError etf)
  else Except.ok ()

/-- The inner loop of `_is_ioc_field_missing` for one schema field: every
directive field name equal to this field's name is appended to `found_list`
(one append per occurrence, preserving order). -/
def ioc_hits (names : List String) (v : Field) : List String :=
  names.filter (fun n => v.name == n)

/-- The field loop of `_is_ioc_field_missing`: accumulate `found` and
`found_list`; after each field, return early (`none`) when `found` equals the
number of directives, else keep scanning, ending with the accumulated
`found_list` (`some`). -/
def ioc_loop (names : List String) : List Field → Nat → List String → Option (List String)
  | [], _, fl => some fl
  | v :: vs, found, fl =>
    let found2 := found + (ioc_hits names v).length
    let fl2 := fl ++ ioc_hits names v
    if found2 = names.length then none
    else ioc_loop names vs found2 fl2

/-- The total `found_list` accumulated when the field scan of
`_is_ioc_field_missing` runs to completion without an early return: per
field, the directive field names equal to that field's name, in scan
order. -/
def ioc_collect (names : List String) : List Field → List String
  | [] => []
  | v :: vs => ioc_hits names v ++ ioc_collect names vs

/-- Python `list(set(a) - set(b))`: the elements of `a` not in `b`, each
once.  Python's set iteration order is arbitrary; the claims about this value
are order-independent, so the deduplicated filtered list stands in for it. -/
def pySetDiff (a b : List String) : List String :=
  a.dedup.filter (fun x => decide (x ∉ b))

/-- `_is_ioc_field_missing`: on an empty directive tuple the subscript
`unzipped_entries[1]` raises `IndexError`.  Otherwise the field scan either
finds every directive's field name (early return) or raises
`IndicatorFieldError` with
`list(set(found_list) - set(names)) + list(set(names) - set(found_list))`. -/
def is_ioc_field_missing (schema : Schema) (ind : List (String × String)) :
    Except Err Unit :=
  match ind with
  | [] => Except.error Err.IndexError
  | _ :: _ =>
    let names := ind.map Prod.snd
    match ioc_loop names schema.fields 0 [] with
    | none => Except.ok ()
    | some found_list =>
      Except.error (Err.IndicatorFieldErrorUnfound
        (pySetDiff found_list names ++ pySetDiff names found_list))

/-! ## FieldAnnotationRules: the per-field body of the loop in
`_write_schema_file` -/

/-- The event-time rule: when the field's name equals the event-time
directive, set `isEventTime` and `type`, and set `timeFormat` only when a
(truthy) time format was supplied. -/
def apply_event_time_rule (etf : String) (tf : Option String) (field : Field) : Field :=
  if field.name = etf then
    let f2 := (field.withIsEventTime (some true)).withType "timestamp"
    match tf with
    | some t => f2.withTimeFormat (some t)
    | none => f2
  else field

/-- The indicator rule, `for ioc, ifield in indicator_field`: every directive
whose field name matches assigns `field["indicators"] = [ioc]` — an
overwrite with a one-element list, not an append.  (The `if indicator_field:`
guard in the source skips the loop on an empty tuple, which coincides with
the empty-list base case here.) -/
def apply_indicator_rule : List (String × String) → Field → Field
  | [], f => f
  | (ioc, ifield) :: rest, f =>
    apply_indicator_rule rest
      (if f.name = ifield then f.withIndicators (some [ioc]) else f)

/-- The json-cast rule, `for jfield in json_field`: every matching name sets
`field["type"] = "json"` and then `del field["fields"]`, which raises
`KeyError` when the field has no nested field list. -/
def apply_json_rule : List String → Field → Except Err Field
  | [], f => Except.ok f
  | j :: js, f =>
    if f.name = j then
      match f.fields with
      | none => Except.error (Err.KeyError "fields")
      | some _ => apply_json_rule js ((f.withType "json").withFields none)
    else apply_json_rule js f

/-- The whole loop body of `_write_schema_file` for one field: event-time
rule, then indicator rule, then json-cast rule. -/
def annotate_field (etf : String) (tf : Option String) (ind : List (String × String))
    (jf : List String) (field : Field) : Except Err Field :=
  apply_json_rule jf (apply_indicator_rule ind (apply_event_time_rule etf tf field))

/-- The in-memory annotation portion of `_write_schema_file`: the event-time
presence check, then `_is_ioc_field_missing`, then the field-rewrite loop.
An error in either check is raised before any field is rewritten. -/
def write_schema_annotations (schema : Schema) (etf : String) (tf : Option String)
    (ind : List (String × String)) (jf : List String) : Except Err Schema :=
  match event_time_check schema etf with
  | Except.error e => Except.error e
  | Except.ok _ =>
    match is_ioc_field_missing schema ind with
    | Except.error e => Except.error e
    | Except.ok _ =>
      match schema.fields.mapM (annotate_field etf tf ind jf) with
      | Except.error e => Except.error e
      | Except.ok fs => Except.ok (Schema.mk fs)

/-! ## ExternalToolGateway outcome classification -/

/-- The result of `subprocess.run(..., capture_output=True)`, with the two
streams already decoded to text.  (`_test_schema` applies `str` to the raw
bytes rather than decoding; for the ASCII needle "PASS" the two agree, since
Python's bytes repr keeps printable ASCII bytes literal and its escape
sequences contain no uppercase letters.) -/
structure CompletedProcess : Type where
  returncode : Int
  stdout : String
  stderr : String

/-- `_parse_logs`: raise `PantherlogParseError` carrying the full decoded
standard error exactly when it contains "parse error"; otherwise hand the
completed process on unchanged. -/
def parse_logs (parsed : CompletedProcess) : Except Err CompletedProcess :=
  if pyIn "parse error" parsed.stderr then
    Except.error (Err.PantherlogParseError parsed.stderr)
  else Except.ok parsed

/-- `_test_schema`: succeed exactly when standard error contains "PASS";
otherwise raise `PantherlogTestError` carrying the full decoded standard
error. -/
def test_schema (proc : CompletedProcess) : Except Err Unit :=
  if pyIn "PASS" proc.stderr then Except.ok ()
  else Except.error (Err.PantherlogTestError proc.stderr)

/-! ## Basic simp lemmas about the field model -/

@[simp] theorem Field.name_withType (f : Field) (t : String) :
    (f.withType t).name = f.name := by cases f; rfl

@[simp] theorem Field.name_withIsEventTime (f : Field) (e : Option Bool) :
    (f.withIsEventTime e).name = f.name := by cases f; rfl

@[simp] theorem Field.name_withTimeFormat (f : Field) (tf : Option String) :
    (f.withTimeFormat tf).name = f.name := by cases f; rfl

@[simp] theorem Field.name_withIndicators (f : Field) (i : Option (List String)) :
    (f.withIndicators i).name = f.name := by cases f; rfl

@[simp] theorem Field.name_withFields (f : Field) (s : Option (List Field)) :
    (f.withFields s).name = f.name := by cases f; rfl

@[simp] theorem Field.indicators_withIndicators (f : Field) (i : Option (List String)) :
    (f.withIndicators i).indicators = i := by cases f; rfl

@[simp] theorem Field.fields_withFields (f : Field) (s : Option (List Field)) :
    (f.withFields s).fields = s := by cases f; rfl

@[simp] theorem Field.fields_withType (f : Field) (t : String) :
    (f.withType t).fields = f.fields := by cases f; rfl

/-! ## C3, C4, C10: evaluation theorems at the failing inputs -/

/-- C3: indicator validation is claimed to return any directive sequence over
the closed vocabulary unchanged, including the empty sequence, and to fail
only with `IndicatorFieldError` otherwise.  The code instead raises a bare
`IndexError` on the empty sequence (the default of the optional option),
because `list(zip(*value))[0]` indexes an empty list; a valid nonempty
sequence is returned unchanged as claimed. -/
theorem validate_indicator_field_empty_crash :
    validate_indicator_field [] = Except.error Err.IndexError ∧
    validate_indicator_field [("ip", "src_ip")] = Except.ok [("ip", "src_ip")] :=
  ⟨rfl, rfl⟩

/-- C4: the sample validator is claimed to accept a file consisting of
exactly one line that is a single self-contained JSON object.  The code
instead rejects it with the pretty-print diagnostic: `last_line` is only
assigned by iterating over the lines after the first, so on a one-line file
the `startswith` check runs on the empty string.  The same line twice (every
line still valid JSON) passes, exposing the inconsistency. -/
theorem validate_logs_single_line_bug :
    validate_logs (fun _ => true) ["\x7b\x22a\x22:1\x7d"] =
      Except.error Err.LogFormatErrorPretty ∧
    validate_logs (fun _ => true) ["\x7b\x22a\x22:1\x7d", "\x7b\x22a\x22:1\x7d"] =
      Except.ok () :=
  ⟨rfl, rfl⟩

/-- C10: name normalization is claimed to be total with exactly two
outcomes, failing with `SchemaNameError` even when nothing follows the
prefix.  The code instead raises a bare `IndexError` on "Custom." and on the
empty string, because `value.partition(".")[2][0]` indexes an empty
string. -/
theorem validate_schema_name_empty_suffix_crash :
    validate_schema_name "Custom." = Except.error Err.IndexError ∧
    validate_schema_name "" = Except.error Err.IndexError :=
  ⟨rfl, rfl⟩

/-! ## C7, C8: outcome classification of the external tool commands -/

/-- C7: the parse step fails, with a `PantherlogParseError` carrying the full
decoded standard-error text, exactly when standard error contains the
substring "parse error"; otherwise it succeeds, and the classification reads
neither the exit code nor standard output. -/
theorem parse_logs_spec (p : CompletedProcess) :
    (parse_logs p = Except.error (Err.PantherlogParseError p.stderr) ↔
      pyIn "parse error" p.stderr = true) ∧
    (parse_logs p = Except.ok p ↔ pyIn "parse error" p.stderr = false) ∧
    (∀ rc out, parse_logs (CompletedProcess.mk rc out p.stderr) =
      Except.map (fun _ => CompletedProcess.mk rc out p.stderr) (parse_logs p)) := by
  by_cases hp : pyIn "parse error" p.stderr = true
  · simp [parse_logs, hp, Except.map]
  · simp at hp
    simp [parse_logs, hp, Except.map]

/-- C7 witness: evaluating the two outcomes at concrete captured results. -/
theorem parse_logs_spec_witness :
    parse_logs (CompletedProcess.mk 1 "out" "x parse error y") =
      Except.error (Err.PantherlogParseError "x parse error y") ∧
    parse_logs (CompletedProcess.mk 7 "out" "all fine") =
      Except.ok (CompletedProcess.mk 7 "out" "all fine") :=
  ⟨(parse_logs_spec (CompletedProcess.mk 1 "out" "x parse error y")).1.mpr (by decide),
   (parse_logs_spec (CompletedProcess.mk 7 "out" "all fine")).2.1.mpr (by decide)⟩

/-- C8: the test step succeeds exactly when standard error contains the
substring "PASS"; otherwise it fails with a `PantherlogTestError` carrying
the full decoded standard-error text, and the classification reads neither
the exit code nor standard output. -/
theorem test_schema_spec (p : CompletedProcess) :
    (test_schema p = Except.ok () ↔ pyIn "PASS" p.stderr = true) ∧
    (test_schema p = Except.error (Err.PantherlogTestError p.stderr) ↔
      pyIn "PASS" p.stderr = false) ∧
    (∀ rc out, test_schema (CompletedProcess.mk rc out p.stderr) = test_schema p) := by
  by_cases hp : pyIn "PASS" p.stderr = true
  · simp [test_schema, hp]
  · simp at hp
    simp [test_schema, hp]

/-- C8 witness: evaluating the two outcomes at concrete captured results. -/
theorem test_schema_spec_witness :
    test_schema (CompletedProcess.mk 0 "out" "3 tests: PASS") = Except.ok () ∧
    test_schema (CompletedProcess.mk 0 "out" "2 tests: FAIL") =
      Except.error (Err.PantherlogTestError "2 tests: FAIL") :=
  ⟨(test_schema_spec (CompletedProcess.mk 0 "out" "3 tests: PASS")).1.mpr (by decide),
   (test_schema_spec (CompletedProcess.mk 0 "out" "2 tests: FAIL")).2.1.mpr (by decide)⟩

/-! ## C5: the event-time presence check -/

theorem find_field_name_iff (l : List Field) (etf : String) :
    find_field_name l etf = true ↔ ∃ f ∈ l, f.name = etf := by
  induction l with
  | nil => simp [find_field_name]
  | cons v vs ih =>
    by_cases hv : v.name = etf
    · simp [find_field_name, hv]
    · simp only [find_field_name, if_neg hv, ih, List.mem_cons]
      constructor
      · rintro ⟨f, hf, hn⟩
        exact ⟨f, Or.inr hf, hn⟩
      · rintro ⟨f, hf | hf, hn⟩
        · exact absurd (hf ▸ hn) hv
        · exact ⟨f, hf, hn⟩

/-- C5: when no field of the document carries the requested event-time name,
the whole annotation step fails with an `EventTimeFieldError` naming that
field before any field is rewritten; when some field carries it, the check
passes. -/
theorem event_time_field_spec (schema : Schema) (etf : String) :
    ((∀ f ∈ schema.fields, f.name ≠ etf) →
      ∀ tf ind jf, write_schema_annotations schema etf tf ind jf =
        Except.error (Err.EventTimeFieldError etf)) ∧
    ((∃ f ∈ schema.fields, f.name = etf) → event_time_check schema etf = Except.ok ()) := by
  constructor
  · intro h tf ind jf
    have hfind : find_field_name schema.fields etf = false := by
      rw [Bool.eq_false_iff]
      intro hc
      obtain ⟨f, hf, hn⟩ := (find_field_name_iff schema.fields etf).mp hc
      exact h f hf hn
    unfold write_schema_annotations event_time_check is_event_time_field_missing
    rw [hfind]
    simp
  · intro h
    have hfind : find_field_name schema.fields etf = true :=
      (find_field_name_iff schema.fields etf).mpr h
    unfold event_time_check is_event_time_field_missing
    rw [hfind]
    simp

/-- C5 witness: a document lacking the event-time field "t" makes annotation
fail naming "t"; a document carrying it passes the check. -/
theorem event_time_field_spec_witness :
    write_schema_annotations (Schema.mk [Field.mk "b" "string" none none none none])
        "t" none [] [] = Except.error (Err.EventTimeFieldError "t") ∧
    event_time_check (Schema.mk [Field.mk "t" "string" none none none none]) "t" =
      Except.ok () :=
  ⟨(event_time_field_spec (Schema.mk [Field.mk "b" "string" none none none none]) "t").1
      (by intro f hf; simp at hf; subst hf; decide) none [] [],
   (event_time_field_spec (Schema.mk [Field.mk "t" "string" none none none none]) "t").2
      ⟨Field.mk "t" "string" none none none none, by simp, rfl⟩⟩

/-! ## C9: idempotence of name normalization -/

theorem isPrefixOf_append_self (l t : List Char) : l.isPrefixOf (l ++ t) = true := by
  induction l with
  | nil => simp [List.isPrefixOf]
  | cons c cs ih => simp [List.isPrefixOf, ih]

theorem normalized_startswith (x : String) :
    pyStartswith (normalize_name x) "Custom." = true := by
  unfold normalize_name
  by_cases h : pyStartswith x "Custom." = true
  · simp [h]
  · simp only [Bool.not_eq_true] at h
    simp only [h, Bool.false_eq_true, if_false]
    obtain ⟨l⟩ := x
    show ("Custom.".data).isPrefixOf ("Custom.".data ++ l) = true
    exact isPrefixOf_append_self _ _

theorem normalize_name_of_startswith (v : String)
    (h : pyStartswith v "Custom." = true) : normalize_name v = v := by
  unfold normalize_name
  rw [h]
  rfl

/-- C9: whenever name normalization succeeds, its result starts with the
namespace "Custom.", and normalization is idempotent: running it again on
the result succeeds with the same value. -/
theorem validate_schema_name_idem (x v : String)
    (h : validate_schema_name x = Except.ok v) :
    pyStartswith v "Custom." = true ∧ validate_schema_name v = Except.ok v := by
  unfold validate_schema_name at h
  split at h
  · exact absurd h (by simp)
  · rename_i c cs hl
    split at h
    · rename_i hc
      have hv : normalize_name x = v := by simpa using h
      subst hv
      refine ⟨normalized_startswith x, ?_⟩
      unfold validate_schema_name
      rw [normalize_name_of_startswith _ (normalized_startswith x)]
      simp [hl, hc]
    · exact absurd h (by simp)

/-- C9 witness: normalizing "Foo" yields "Custom.Foo", which starts with the
namespace and re-normalizes to itself. -/
theorem validate_schema_name_idem_witness :
    pyStartswith "Custom.Foo" "Custom." = true ∧
    validate_schema_name "Custom.Foo" = Except.ok "Custom.Foo" :=
  validate_schema_name_idem "Foo" "Custom.Foo" rfl

/-! ## C1: the indicator rule overwrites instead of appending -/

theorem apply_indicator_rule_append (l : List (String × String)) (p : String × String)
    (f : Field) :
    apply_indicator_rule (l ++ [p]) f =
      (if (apply_indicator_rule l f).name = p.2 then
        (apply_indicator_rule l f).withIndicators (some [p.1])
      else apply_indicator_rule l f) := by
  induction l generalizing f with
  | nil =>
    obtain ⟨ioc, ifield⟩ := p
    rfl
  | cons q l ih =>
    obtain ⟨a, b⟩ := q
    simp only [List.cons_append, apply_indicator_rule]
    exact ih _

/-- C1 counterexample: a field targeted by the two directives ("ip", "a")
and ("domain", "a") ends with indicators `["domain"]` only — the "ip" tag
claimed to be accumulated is absent. -/
theorem apply_indicator_rule_cex :
    (apply_indicator_rule [("ip", "a"), ("domain", "a")]
        (Field.mk "a" "string" none none none none)).indicators = some ["domain"] ∧
    ¬ ("ip" ∈ (["domain"] : List String)) :=
  ⟨rfl, by decide⟩

/-- C1 amended: each directive whose field-name equals the field's name
overwrites the field's `indicators` entry with the one-element list of its
tag, so a field targeted by at least one directive ends with exactly the
last matching directive's tag, and a field targeted by none keeps its
`indicators` entry unchanged. -/
theorem apply_indicator_rule_spec (ind : List (String × String)) (f : Field) :
    (apply_indicator_rule ind f).name = f.name ∧
    (apply_indicator_rule ind f).indicators =
      (match (ind.filter (fun p => f.name == p.2)).getLast? with
        | none => f.indicators
        | some p => some [p.1]) := by
  induction ind using List.reverseRecOn with
  | nil => exact ⟨rfl, rfl⟩
  | append_singleton l p ih =>
    obtain ⟨hname, hind⟩ := ih
    rw [apply_indicator_rule_append, List.filter_append]
    by_cases hm : f.name = p.2
    · have hfp : List.filter (fun q => f.name == q.2) [p] = [p] := by simp [hm]
      rw [hfp, List.getLast?_concat, if_pos (by rw [hname]; exact hm)]
      exact ⟨by simp [hname], by simp⟩
    · have hfp : List.filter (fun q => f.name == q.2) [p] = [] := by simp [hm]
      rw [hfp, List.append_nil, if_neg (by rw [hname]; exact hm)]
      exact ⟨hname, hind⟩

/-! ## C2: the json-cast rule fails on fields without a nested field list -/

theorem apply_json_rule_not_mem (jf : List String) (f : Field) (h : f.name ∉ jf) :
    apply_json_rule jf f = Except.ok f := by
  induction jf with
  | nil => rfl
  | cons j js ih =>
    have hj : ¬ f.name = j := fun hc => h (hc ▸ List.mem_cons_self j js)
    simp only [apply_json_rule, if_neg hj]
    exact ih fun hc => h (List.mem_cons_of_mem _ hc)

theorem apply_json_rule_none (jf : List String) (f : Field) (hnone : f.fields = none) :
    f.name ∈ jf → apply_json_rule jf f = Except.error (Err.KeyError "fields") := by
  induction jf with
  | nil =>
    intro hmem
    simp at hmem
  | cons j js ih =>
    intro hmem
    by_cases hj : f.name = j
    · simp only [apply_json_rule, if_pos hj, hnone]
    · rcases List.mem_cons.mp hmem with hc | hc
      · exact absurd hc hj
      · simp only [apply_json_rule, if_neg hj]
        exact ih hc

theorem apply_json_rule_some (jf : List String) (f : Field) (sub : List Field)
    (hsub : f.fields = some sub) :
    jf.Nodup → f.name ∈ jf →
      apply_json_rule jf f = Except.ok ((f.withType "json").withFields none) := by
  induction jf with
  | nil =>
    intro _ hmem
    simp at hmem
  | cons j js ih =>
    intro hnd hmem
    have hj' : j ∉ js := (List.nodup_cons.mp hnd).1
    have hnd' : js.Nodup := (List.nodup_cons.mp hnd).2
    by_cases hj : f.name = j
    · simp only [apply_json_rule, if_pos hj, hsub]
      apply apply_json_rule_not_mem
      have hn : ((f.withType "json").withFields none).name = f.name := by simp
      rw [hn, hj]
      exact hj'
    · rcases List.mem_cons.mp hmem with hc | hc
      · exact absurd hc hj
      · simp only [apply_json_rule, if_neg hj]
        exact ih hnd' hc

/-- C2 counterexample: a field named "a" with no nested field list, with "a"
in the json-cast set, makes the json-cast rule fail with a `KeyError` (from
`del field["fields"]`) instead of always succeeding. -/
theorem apply_json_rule_cex :
    apply_json_rule ["a"] (Field.mk "a" "string" none none none none) =
      Except.error (Err.KeyError "fields") := rfl

/-- C2 amended: for every field whose name is in the (duplicate-free)
json-cast set, the json-cast rule yields `type=json` with the nested field
list removed when the field has one, regardless of the field's prior type;
when the field has no nested field list the rule fails with a `KeyError`
rather than succeeding.  A field whose name is not in the set is returned
unchanged. -/
theorem apply_json_rule_spec (jf : List String) (f : Field) (hnd : jf.Nodup) :
    (f.name ∉ jf → apply_json_rule jf f = Except.ok f) ∧
    (f.name ∈ jf → f.fields = none →
      apply_json_rule jf f = Except.error (Err.KeyError "fields")) ∧
    (∀ sub, f.name ∈ jf → f.fields = some sub →
      apply_json_rule jf f = Except.ok ((f.withType "json").withFields none)) :=
  ⟨fun h => apply_json_rule_not_mem jf f h,
   fun hm hn => apply_json_rule_none jf f hn hm,
   fun sub hm hs => apply_json_rule_some jf f sub hs hnd hm⟩

/-- C2 witness: an object field with an (empty) nested field list is recast
to an opaque json field with the nested list removed. -/
theorem apply_json_rule_spec_witness :
    apply_json_rule ["a"] (Field.mk "a" "object" none none none (some [])) =
      Except.ok (((Field.mk "a" "object" none none none (some [])).withType
        "json").withFields none) :=
  (apply_json_rule_spec ["a"] (Field.mk "a" "object" none none none (some []))
    (by decide)).2.2 [] (by decide) rfl

/-! ## C6: the indicator-field presence scan -/

theorem str_beq_eq (a b : String) : (a == b) = decide (a = b) := by
  rw [Bool.eq_iff_iff]
  simp

theorem mem_cons_decide (x y : String) (l : List String) :
    decide (x ∈ y :: l) = (decide (x = y) || decide (x ∈ l)) := by
  by_cases h1 : x = y <;> by_cases h2 : x ∈ l <;> simp [h1, h2]

theorem ioc_hits_eq (names : List String) (v : Field) :
    ioc_hits names v = names.filter (fun n => decide (n = v.name)) := by
  unfold ioc_hits
  apply List.filter_congr
  intro a _
  rw [str_beq_eq]
  exact decide_eq_decide.mpr eq_comm

theorem length_filter_or (p q : String → Bool) (l : List String)
    (hd : ∀ a, ¬(p a = true ∧ q a = true)) :
    (l.filter (fun a => p a || q a)).length = (l.filter p).length + (l.filter q).length := by
  induction l with
  | nil => rfl
  | cons a t ih =>
    cases hpa : p a with
    | true =>
      cases hqa : q a with
      | true => exact absurd ⟨hpa, hqa⟩ (hd a)
      | false =>
        simp [List.filter_cons, hpa, hqa, ih]
        omega
    | false =>
      cases hqa : q a with
      | true =>
        simp [List.filter_cons, hpa, hqa, ih]
        omega
      | false =>
        simp [List.filter_cons, hpa, hqa, ih]

theorem ioc_collect_length (names : List String) (vs : List Field) :
    (vs.map Field.name).Nodup →
    (ioc_collect names vs).length =
      (names.filter (fun n => decide (n ∈ vs.map Field.name))).length := by
  induction vs with
  | nil =>
    intro _
    simp [ioc_collect]
  | cons v vs ih =>
    intro hnd
    rw [List.map_cons] at hnd
    have hv : v.name ∉ vs.map Field.name := (List.nodup_cons.mp hnd).1
    have hnd' := (List.nodup_cons.mp hnd).2
    have hcongr : List.filter (fun n => decide (n ∈ (v :: vs).map Field.name)) names =
        List.filter (fun n => decide (n = v.name) || decide (n ∈ vs.map Field.name))
          names := by
      apply List.filter_congr
      intro a _
      rw [List.map_cons]
      exact mem_cons_decide a v.name (vs.map Field.name)
    have hdisj : ∀ a, ¬((fun n => decide (n = v.name)) a = true ∧
        (fun n => decide (n ∈ vs.map Field.name)) a = true) := by
      intro a h
      obtain ⟨h1, h2⟩ := h
      rw [decide_eq_true_eq] at h1 h2
      exact hv (h1 ▸ h2)
    rw [hcongr, length_filter_or _ _ names hdisj]
    simp only [ioc_collect, List.length_append, ioc_hits_eq, ih hnd']

theorem ioc_collect_mem (names : List String) (vs : List Field) (s : String) :
    s ∈ ioc_collect names vs ↔ (s ∈ vs.map Field.name ∧ s ∈ names) := by
  induction vs with
  | nil => simp [ioc_collect]
  | cons v vs ih =>
    simp only [ioc_collect, List.mem_append, ih, ioc_hits, List.mem_filter,
      List.map_cons, List.mem_cons]
    constructor
    · rintro (⟨hs, hb⟩ | ⟨hm, hs⟩)
      · have hv : v.name = s := by simpa using hb
        exact ⟨Or.inl hv.symm, hs⟩
      · exact ⟨Or.inr hm, hs⟩
    · rintro ⟨hm | hm, hs⟩
      · subst hm
        exact Or.inl ⟨hs, by simp⟩
      · exact Or.inr ⟨hm, hs⟩

theorem ioc_loop_complete (names : List String) (vs : List Field) :
    ∀ (found : Nat) (fl : List String),
      found + (ioc_collect names vs).length < names.length →
      ioc_loop names vs found fl = some (fl ++ ioc_collect names vs) := by
  induction vs with
  | nil =>
    intro found fl _
    simp [ioc_loop, ioc_collect]
  | cons v vs ih =>
    intro found fl hlt
    simp only [ioc_collect, List.length_append] at hlt
    have hne2 : ¬ (found + (ioc_hits names v).length = names.length) := by omega
    simp only [ioc_loop, if_neg hne2]
    rw [ih (found + (ioc_hits names v).length) (fl ++ ioc_hits names v) (by omega)]
    simp [ioc_collect, List.append_assoc]

theorem ioc_loop_hit (names : List String) (vs : List Field) :
    ∀ (found : Nat), vs ≠ [] →
      found + (ioc_collect names vs).length = names.length →
      ∀ fl, ioc_loop names vs found fl = none := by
  induction vs with
  | nil =>
    intro _ h _ _
    exact absurd rfl h
  | cons v vs ih =>
    intro found _ heq fl
    simp only [ioc_collect, List.length_append] at heq
    by_cases h2 : found + (ioc_hits names v).length = names.length
    · simp only [ioc_loop, if_pos h2]
    · have hvs : vs ≠ [] := by
        intro hnil
        subst hnil
        simp [ioc_collect] at heq
        omega
      simp only [ioc_loop, if_neg h2]
      exact ih _ hvs (by omega) _

/-- C6: over a document with unique field names and a nonempty directive
sequence, the scan succeeds when every directive's field name occurs among
the document's fields, and otherwise fails with an `IndicatorFieldError`
whose unfound list contains exactly the directive field names absent from
the document (order-independent set equality). -/
theorem is_ioc_field_missing_spec (schema : Schema) (ind : List (String × String))
    (hnd : (schema.fields.map Field.name).Nodup) (hne : ind ≠ []) :
    ((∀ p ∈ ind, p.2 ∈ schema.fields.map Field.name) →
      is_ioc_field_missing schema ind = Except.ok ()) ∧
    ((∃ p ∈ ind, p.2 ∉ schema.fields.map Field.name) →
      ∃ u, is_ioc_field_missing schema ind =
          Except.error (Err.IndicatorFieldErrorUnfound u) ∧
        ∀ s, s ∈ u ↔ (s ∈ ind.map Prod.snd ∧ s ∉ schema.fields.map Field.name)) := by
  obtain ⟨p0, ps, rfl⟩ : ∃ p0 ps, ind = p0 :: ps := by
    cases ind with
    | nil => exact absurd rfl hne
    | cons a l => exact ⟨a, l, rfl⟩
  constructor
  · intro hall
    have hall' : ∀ n ∈ (p0 :: ps).map Prod.snd, n ∈ schema.fields.map Field.name := by
      intro n hn
      obtain ⟨p, hp, rfl⟩ := List.mem_map.mp hn
      exact hall p hp
    have hfe : List.filter (fun n => decide (n ∈ schema.fields.map Field.name))
        ((p0 :: ps).map Prod.snd) = (p0 :: ps).map Prod.snd :=
      List.filter_eq_self.mpr (fun a ha => by simpa using hall' a ha)
    have hlen : (ioc_collect ((p0 :: ps).map Prod.snd) schema.fields).length =
        ((p0 :: ps).map Prod.snd).length := by
      rw [ioc_collect_length _ _ hnd, hfe]
    have hfields : schema.fields ≠ [] := by
      intro h0
      have hm := hall' p0.2 (by simp)
      rw [h0] at hm
      simp at hm
    have hloop : ioc_loop ((p0 :: ps).map Prod.snd) schema.fields 0 [] = none :=
      ioc_loop_hit _ _ 0 hfields (by omega) []
    simp only [is_ioc_field_missing, hloop]
  · rintro ⟨p, hp, hpn⟩
    have hle := List.length_filter_le
      (fun n => decide (n ∈ schema.fields.map Field.name)) ((p0 :: ps).map Prod.snd)
    have hneq : (List.filter (fun n => decide (n ∈ schema.fields.map Field.name))
        ((p0 :: ps).map Prod.snd)).length ≠ ((p0 :: ps).map Prod.snd).length := by
      intro heq
      have heqL : List.filter (fun n => decide (n ∈ schema.fields.map Field.name))
          ((p0 :: ps).map Prod.snd) = (p0 :: ps).map Prod.snd :=
        (List.filter_sublist _).eq_of_length heq
      have hm := List.filter_eq_self.mp heqL p.2 (List.mem_map.mpr ⟨p, hp, rfl⟩)
      simp at hm
      exact hpn (List.mem_map.mpr hm)
    have hlt : (ioc_collect ((p0 :: ps).map Prod.snd) schema.fields).length <
        ((p0 :: ps).map Prod.snd).length := by
      rw [ioc_collect_length _ _ hnd]
      omega
    have hloop : ioc_loop ((p0 :: ps).map Prod.snd) schema.fields 0 [] =
        some (ioc_collect ((p0 :: ps).map Prod.snd) schema.fields) := by
      have hc := ioc_loop_complete ((p0 :: ps).map Prod.snd) schema.fields 0 [] (by omega)
      simpa using hc
    refine ⟨pySetDiff (ioc_collect ((p0 :: ps).map Prod.snd) schema.fields)
        ((p0 :: ps).map Prod.snd) ++
      pySetDiff ((p0 :: ps).map Prod.snd)
        (ioc_collect ((p0 :: ps).map Prod.snd) schema.fields), ?_, ?_⟩
    · simp only [is_ioc_field_missing, hloop]
    · intro s
      simp only [pySetDiff, List.mem_append, List.mem_filter, List.mem_dedup,
        decide_eq_true_eq, ioc_collect_mem]
      tauto

/-- C6 witness: a single directive naming an existing field passes the
scan. -/
theorem is_ioc_field_missing_spec_witness :
    is_ioc_field_missing (Schema.mk [Field.mk "src_ip" "string" none none none none])
      [("ip", "src_ip")] = Except.ok () :=
  (is_ioc_field_missing_spec
    (Schema.mk [Field.mk "src_ip" "string" none none none none])
    [("ip", "src_ip")] (by decide) (by decide)).1 (by decide)

end Ezpantherlog
